import Mathlib

/-!
Verification of the miditopus MIDI inter-connector (`src/app.py`) against its
specification.

The program keeps three shared structures (`app.py`, `main`, lines 95–97):

* `inputs  : Dict[str, Optional[BaseInput]]`  — known input device names, each
  mapped to its lazily opened handle (`None` until first use);
* `outputs : Dict[str, Optional[BaseOutput]]` — the same for outputs;
* `connections : defaultdict(set)` — adjacency map from an input name to the
  set of output names it fans out to.

We embed a dictionary `name -> Optional[handle]` as a `Finset String` of keys
together with a total function `String → Option Nat` giving the stored handle
(`none` both for a `None` slot and for an absent key; handles are numbered by
`Nat`).  The `connections` defaultdict is a key set `cKeys : Finset String`
plus a total function `cMap : String → Finset String` that returns `∅` for
absent keys, matching `defaultdict(set)` reads.

`update_ports` (lines 47–81) is embedded as the pure body of one poll cycle,
`toggle` is the connect/disconnect core of `handle_connection`
(lines 176–179), and the message-propagation block of `main`
(lines 125–133) is embedded as the send/drain traces of one routing tick.
-/

namespace Miditopus

/-- `startsWithL d n` is true when the char list `d` is an initial segment of
`n`; building block for Python's substring test `device in name`. -/
def startsWithL : List Char → List Char → Bool
  | [], _ => true
  | _ :: _, [] => false
  | c :: cs, d :: ds => c == d && startsWithL cs ds

/-- `containsL d n` is true when `d` occurs as a contiguous sublist of `n`:
Python's `device in name` on strings. -/
def containsL : List Char → List Char → Bool
  | d, [] => startsWithL d []
  | d, c :: cs => startsWithL d (c :: cs) || containsL d cs

/-- Python's substring test `d in n` for strings. -/
def substrOf (d n : String) : Bool :=
  containsL d.data n.data

/-- `IGNORED_DEVICES` (`app.py` line 18). -/
def IGNORED_DEVICES : List String := ["Midi Through Port", "RtMidi"]

/-- The filter on OS-reported names used in both set comprehensions of
`update_ports` (lines 56–60 and 68–72):
`all(device not in name for device in IGNORED_DEVICES)`. -/
def keepName (n : String) : Bool :=
  IGNORED_DEVICES.all fun d => !(substrOf d n)

/-- `new_inputs` / `new_outputs`: the set of OS-reported names that survive
the ignore-list filter (lines 56–60, 68–72). -/
def filterNames (os : List String) : Finset String :=
  (os.filter keepName).toFinset

/-- The shared state of `main`: the `inputs` and `outputs` dictionaries
(key set plus stored handle slots) and the `connections` defaultdict
(key set plus target-set map, `∅` for absent keys). -/
@[ext]
structure Ports where
  inKeys : Finset String
  inH : String → Option Nat
  outKeys : Finset String
  outH : String → Option Nat
  cKeys : Finset String
  cMap : String → Finset String

/-- `set(inputs) - new_inputs` (line 61): inputs dropped by this cycle. -/
def removedInputsD (st : Ports) (osIn : List String) : Finset String :=
  st.inKeys \ filterNames osIn

/-- `new_inputs - set(inputs)` (line 65): inputs added by this cycle. -/
def addedInputsD (st : Ports) (osIn : List String) : Finset String :=
  filterNames osIn \ st.inKeys

/-- `set(outputs) - new_outputs` (line 73): outputs dropped by this cycle. -/
def removedOutputsD (st : Ports) (osOut : List String) : Finset String :=
  st.outKeys \ filterNames osOut

/-- `new_outputs - set(outputs)` (line 78): outputs added by this cycle. -/
def addedOutputsD (st : Ports) (osOut : List String) : Finset String :=
  filterNames osOut \ st.outKeys

/-- One iteration of the `while True` loop of `update_ports`
(`app.py` lines 55–81), with the OS device lists passed in:

* removal loop (61–64): `del inputs[removed]`, and `del connections[removed]`
  when present;
* addition loop (65–66): `inputs[added] = None`;
* output removal loop (73–77): `del outputs[removed]` and
  `targets.remove(removed)` in every value set of `connections`;
* output addition loop (78–79): `outputs[added] = None`. -/
def update_cycle (st : Ports) (osIn osOut : List String) : Ports where
  inKeys := (st.inKeys \ (st.inKeys \ filterNames osIn)) ∪ (filterNames osIn \ st.inKeys)
  inH := fun x =>
    if x ∈ filterNames osIn \ st.inKeys then none
    else if x ∈ st.inKeys \ filterNames osIn then none
    else st.inH x
  outKeys := (st.outKeys \ (st.outKeys \ filterNames osOut)) ∪ (filterNames osOut \ st.outKeys)
  outH := fun x =>
    if x ∈ filterNames osOut \ st.outKeys then none
    else if x ∈ st.outKeys \ filterNames osOut then none
    else st.outH x
  cKeys := st.cKeys \ (st.inKeys \ filterNames osIn)
  cMap := fun x =>
    (if x ∈ st.inKeys \ filterNames osIn then ∅ else st.cMap x)
      \ (st.outKeys \ filterNames osOut)

/-- The connect/disconnect core of `handle_connection` (lines 176–179),
acting on the `connections` defaultdict.  The subscript
`connections[input_]` inserts the key with a fresh empty set when absent
(defaultdict), so the key set always gains `i`; then the edge to `o` is
removed when present and added when absent. -/
def toggle (ck : Finset String) (cm : String → Finset String) (i o : String) :
    Finset String × (String → Finset String) :=
  if o ∈ cm i then
    (insert i ck, fun x => if x = i then (cm i).erase o else cm x)
  else
    (insert i ck, fun x => if x = i then insert o (cm i) else cm x)

/-- A MIDI message: an opaque list of data bytes, forwarded verbatim. -/
abbrev Msg := List Nat

/-- The inputs whose handle slot is touched (opened when still `None`) by the
propagation block of `main` (lines 126–128): every key of `connections`,
regardless of its target set. -/
def tickOpened (conns : List (String × List String)) : List String :=
  conns.map Prod.fst

/-- The `(source, message)` pairs drained by `iter_pending()` during one pass
of the propagation block (line 129): every pending message of every
`connections` key, in arrival order. -/
def tickDrains (conns : List (String × List String)) (pending : String → List Msg) :
    List (String × Msg) :=
  conns.flatMap fun p => (pending p.1).map fun m => (p.1, m)

/-- The `(source, target, message)` send events of one pass of the propagation
block (lines 129–133): for each `connections` item in order, for each drained
message in arrival order, one `send` per target in the fan-out set. -/
def tickSends (conns : List (String × List String)) (pending : String → List Msg) :
    List (String × String × Msg) :=
  conns.flatMap fun p => (pending p.1).flatMap fun m => p.2.map fun t => (p.1, t, m)

/-- One poll cycle with a fallible input enumeration.  `update_ports` calls
`mido.get_input_names()` with no surrounding `try`, so an OS error escapes the
`while True` loop and the daemon thread dies: the error propagates to the
caller instead of yielding the untouched state. -/
def pollCycleE (st : Ports) (osIn : Except Unit (List String)) (osOut : List String) :
    Except Unit Ports :=
  match osIn with
  | Except.error e => Except.error e
  | Except.ok i => Except.ok (update_cycle st i osOut)

/-- The per-input half of the propagation block with a fallible
`mido.open_input` (lines 127–128).  There is no `try` around the loop body, so
a failed open aborts the whole loop (and the surrounding `while not done`
loop): later inputs are not processed.  Returns the list of inputs processed
when every open succeeds. -/
def processConns (openIn : String → Except Unit Nat)
    (conns : List (String × List String)) : Except Unit (List String) :=
  match conns with
  | [] => Except.ok []
  | (i, _) :: rest =>
    match openIn i with
    | Except.error e => Except.error e
    | Except.ok _ =>
      match processConns openIn rest with
      | Except.error e => Except.error e
      | Except.ok done => Except.ok (i :: done)

/-- One poll cycle paired with the set of OS-level open handles.  `app.py`
never calls `close()` on any port, so the cycle leaves the set of open
handles untouched even when it drops a device's cache entry. -/
def update_cycleH (st : Ports) (openHandles : Finset Nat) (osIn osOut : List String) :
    Ports × Finset Nat :=
  (update_cycle st osIn osOut, openHandles)

/-- The first statement of the input-removal body, `del inputs[removed]`
(line 62), as an atomic step on the shared state. -/
def delInputKey (st : Ports) (d : String) : Ports :=
  { st with inKeys := st.inKeys.erase d, inH := fun x => if x = d then none else st.inH x }

/-- The second statement of the input-removal body, `del connections[removed]`
(line 64), as an atomic step on the shared state. -/
def delConnKey (st : Ports) (d : String) : Ports :=
  { st with cKeys := st.cKeys.erase d, cMap := fun x => if x = d then ∅ else st.cMap x }

/-- Well-formedness of the shared state: every adjacency key is a known
input, absent keys carry no targets, and every fan-out target is a known
output — i.e. no edge endpoint lies outside the known-device sets. -/
def WF (st : Ports) : Prop :=
  st.cKeys ⊆ st.inKeys ∧ (∀ x, x ∉ st.cKeys → st.cMap x = ∅) ∧
    ∀ x, st.cMap x ⊆ st.outKeys

/-! ### Basic lemmas about the poll cycle -/

lemma cycle_inKeys (st : Ports) (osIn osOut : List String) :
    (update_cycle st osIn osOut).inKeys = filterNames osIn := by
  show (st.inKeys \ (st.inKeys \ filterNames osIn)) ∪ (filterNames osIn \ st.inKeys)
      = filterNames osIn
  rw [Finset.sdiff_sdiff_self_left, Finset.inter_comm]
  exact sup_inf_sdiff _ _

lemma cycle_outKeys (st : Ports) (osIn osOut : List String) :
    (update_cycle st osIn osOut).outKeys = filterNames osOut := by
  show (st.outKeys \ (st.outKeys \ filterNames osOut)) ∪ (filterNames osOut \ st.outKeys)
      = filterNames osOut
  rw [Finset.sdiff_sdiff_self_left, Finset.inter_comm]
  exact sup_inf_sdiff _ _

/-! ### Membership behaviour of `toggle` -/

lemma toggle_mem (ck : Finset String) (cm : String → Finset String) (i o i' o' : String) :
    (o' ∈ (toggle ck cm i o).2 i') ↔
      (if i' = i ∧ o' = o then o ∉ cm i else o' ∈ cm i') := by
  unfold toggle
  by_cases h : o ∈ cm i
  · rw [if_pos h]
    by_cases hi : i' = i
    · subst hi
      by_cases ho : o' = o
      · subst ho; simp [h]
      · simp [ho, Finset.mem_erase]
    · simp [hi]
  · rw [if_neg h]
    by_cases hi : i' = i
    · subst hi
      by_cases ho : o' = o
      · subst ho; simp [h]
      · simp [ho, Finset.mem_insert]
    · simp [hi]

/-- C3: toggle is an involution: for every input `i`, output `o` and starting
edge state, `toggle i o` adds the edge when absent and removes it when
present (membership of `o` in `i`'s fan-out set is flipped), and applying
`toggle i o` twice restores the edge-membership state of every pair. -/
theorem toggle_involution (ck : Finset String) (cm : String → Finset String) (i o : String) :
    (o ∈ (toggle ck cm i o).2 i ↔ o ∉ cm i) ∧
    ∀ i' o', (o' ∈ (toggle (toggle ck cm i o).1 (toggle ck cm i o).2 i o).2 i'
      ↔ o' ∈ cm i') := by
  constructor
  · simpa using toggle_mem ck cm i o i o
  · intro i' o'
    rw [toggle_mem]
    by_cases hio : i' = i ∧ o' = o
    · rw [if_pos hio]
      obtain ⟨h1, h2⟩ := hio
      subst h1; subst h2
      rw [toggle_mem]
      simp
    · rw [if_neg hio, toggle_mem, if_neg hio]

/-- Empty connection map, as `defaultdict(set)` starts (`app.py` line 97). -/
def cm2 : String → Finset String := fun _ => ∅

/-- C2: the code does not reject a toggle that names an unknown device.
`handle_connection` never consults the known input/output dictionaries
before mutating `connections`, and the defaultdict subscript creates an
entry for the unknown key: toggling `("Nonexistent", "Synth A")` on an empty
graph adds the edge and the adjacency key instead of being a no-op. -/
theorem toggle_unknown_mutates :
    "Synth A" ∈ (toggle ∅ cm2 "Nonexistent" "Synth A").2 "Nonexistent" ∧
    (toggle ∅ cm2 "Nonexistent" "Synth A").1 = {"Nonexistent"} := by
  constructor
  · simp [toggle, cm2]
  · simp [toggle, cm2]

/-- State before the failing poll of C6: no devices, no edges. -/
def st6 : Ports := ⟨∅, fun _ => none, ∅, fun _ => none, ∅, fun _ => ∅⟩

/-- Open-input environment of C6: opening `"USB MIDI 1"` fails, every other
open succeeds. -/
def open6 : String → Except Unit Nat :=
  fun i => if i = "USB MIDI 1" then Except.error () else Except.ok 0

/-- C6: device and enumeration failures are fatal in the code.  A failing
`mido.get_input_names()` makes the poll cycle return the error (the
`while True` loop has no handler, so the poller thread dies) instead of
skipping the cycle and returning the state unchanged; and a failing
`mido.open_input` for the first connected input aborts the whole
propagation pass, so the second input is never processed either. -/
theorem failures_are_fatal :
    pollCycleE st6 (Except.error ()) [] = Except.error () ∧
    pollCycleE st6 (Except.error ()) [] ≠ Except.ok st6 ∧
    processConns open6 [("USB MIDI 1", []), ("USB MIDI 2", ["Synth A"])]
      = Except.error () := by
  refine ⟨rfl, by simp [pollCycleE], ?_⟩
  simp [processConns, open6]

/-- State of C10: input `"USB MIDI 1"`, output `"Synth A"`, and the single
edge between them. -/
def st10 : Ports :=
  ⟨{"USB MIDI 1"}, fun _ => none, {"Synth A"}, fun _ => none, {"USB MIDI 1"},
    fun x => if x = "USB MIDI 1" then {"Synth A"} else ∅⟩

/-- C10: the removal cascade is not atomic.  `update_ports` runs
`del inputs[removed]` (line 62) and `del connections[removed]` (line 64) as
two separate statements on state shared with the unsynchronized main thread
(`threading.Thread`, lines 98–102; no lock exists in the program), and after
the first statement alone the no-dangling-edge invariant `WF` is broken: the
edge from `"USB MIDI 1"` is still present while the device is gone from the
known input set.  A concurrent reader scheduled between the two statements
observes exactly this partially-cascaded removal. -/
theorem mid_removal_dangling :
    WF st10 ∧ ¬ WF (delInputKey st10 "USB MIDI 1") ∧
    WF (delConnKey (delInputKey st10 "USB MIDI 1") "USB MIDI 1") := by
  refine ⟨⟨?_, ?_, ?_⟩, ?_, ⟨?_, ?_, ?_⟩⟩
  · simp [st10]
  · intro x hx
    rw [st10] at hx ⊢
    simp only [Finset.mem_singleton] at hx
    simp [hx]
  · intro x
    rw [st10]
    by_cases hx : x = "USB MIDI 1"
    · simp [hx]
    · simp [hx]
  · rintro ⟨h1, -, -⟩
    have hmem : "USB MIDI 1" ∈ (delInputKey st10 "USB MIDI 1").cKeys := by
      simp [delInputKey, st10]
    have h2 := h1 hmem
    simp [delInputKey, st10] at h2
  · intro x hx
    simp only [delConnKey, delInputKey, st10, Finset.mem_erase, Finset.mem_singleton] at hx ⊢
    by_cases h : x = "USB MIDI 1" <;> simp [h] at hx ⊢
  · intro x hx
    simp only [delConnKey, delInputKey, st10] at hx ⊢
    by_cases h : x = "USB MIDI 1" <;> simp [h] at hx ⊢
  · intro x
    simp only [delConnKey, delInputKey, st10]
    by_cases h : x = "USB MIDI 1" <;> simp [h]

/-! ### Idempotence of the poll cycle on a quiescent device list -/

lemma cycle_fix_inH (st2 : Ports) (osIn osOut : List String)
    (h : st2.inKeys = filterNames osIn) :
    (update_cycle st2 osIn osOut).inH = st2.inH := by
  funext x
  show (if x ∈ filterNames osIn \ st2.inKeys then none
    else if x ∈ st2.inKeys \ filterNames osIn then none else st2.inH x) = st2.inH x
  simp [h]

lemma cycle_fix_outH (st2 : Ports) (osIn osOut : List String)
    (h : st2.outKeys = filterNames osOut) :
    (update_cycle st2 osIn osOut).outH = st2.outH := by
  funext x
  show (if x ∈ filterNames osOut \ st2.outKeys then none
    else if x ∈ st2.outKeys \ filterNames osOut then none else st2.outH x) = st2.outH x
  simp [h]

lemma cycle_fix_cKeys (st2 : Ports) (osIn osOut : List String)
    (h : st2.inKeys = filterNames osIn) :
    (update_cycle st2 osIn osOut).cKeys = st2.cKeys := by
  show st2.cKeys \ (st2.inKeys \ filterNames osIn) = st2.cKeys
  simp [h]

lemma cycle_fix_cMap (st2 : Ports) (osIn osOut : List String)
    (hin : st2.inKeys = filterNames osIn) (hout : st2.outKeys = filterNames osOut) :
    (update_cycle st2 osIn osOut).cMap = st2.cMap := by
  funext x
  show ((if x ∈ st2.inKeys \ filterNames osIn then ∅ else st2.cMap x)
      \ (st2.outKeys \ filterNames osOut)) = st2.cMap x
  simp [hin, hout]

/-- C9: discovery is idempotent on a quiescent device list: running a second
poll cycle against the same OS-reported name lists changes nothing (the
state, hence in particular the edge set, is fixed) and produces zero
additions and zero removals on both known-device sets. -/
theorem discovery_idempotent (st : Ports) (osIn osOut : List String) :
    update_cycle (update_cycle st osIn osOut) osIn osOut = update_cycle st osIn osOut ∧
    removedInputsD (update_cycle st osIn osOut) osIn = ∅ ∧
    addedInputsD (update_cycle st osIn osOut) osIn = ∅ ∧
    removedOutputsD (update_cycle st osIn osOut) osOut = ∅ ∧
    addedOutputsD (update_cycle st osIn osOut) osOut = ∅ := by
  have hin := cycle_inKeys st osIn osOut
  have hout := cycle_outKeys st osIn osOut
  refine ⟨?_, ?_, ?_, ?_, ?_⟩
  · apply Ports.ext
    · rw [cycle_inKeys, hin]
    · exact cycle_fix_inH _ osIn osOut hin
    · rw [cycle_outKeys, hout]
    · exact cycle_fix_outH _ osIn osOut hout
    · exact cycle_fix_cKeys _ osIn osOut hin
    · exact cycle_fix_cMap _ osIn osOut hin hout
  · rw [removedInputsD, hin]; exact Finset.sdiff_self _
  · rw [addedInputsD, hin]; exact Finset.sdiff_self _
  · rw [removedOutputsD, hout]; exact Finset.sdiff_self _
  · rw [addedOutputsD, hout]; exact Finset.sdiff_self _

/-! ### Ignore-list exclusion -/

lemma ignored_not_in_filterNames (n : String) (os : List String)
    (h : ∃ d ∈ IGNORED_DEVICES, substrOf d n = true) : n ∉ filterNames os := by
  obtain ⟨d, hd, hsub⟩ := h
  intro hmem
  rw [filterNames, List.mem_toFinset, List.mem_filter] at hmem
  have hkeep := hmem.2
  rw [keepName, List.all_eq_true] at hkeep
  have hx := hkeep d hd
  simp [hsub] at hx

/-- C8: ignore-list exclusion: a device name containing an ignore-list
substring is never in the known input set nor in the known output set after
a poll cycle, whatever the previous state and whatever the OS reports. -/
theorem ignored_never_known (n : String)
    (h : ∃ d ∈ IGNORED_DEVICES, substrOf d n = true)
    (st : Ports) (osIn osOut : List String) :
    n ∉ (update_cycle st osIn osOut).inKeys ∧
    n ∉ (update_cycle st osIn osOut).outKeys := by
  constructor
  · rw [cycle_inKeys]; exact ignored_not_in_filterNames n osIn h
  · rw [cycle_outKeys]; exact ignored_not_in_filterNames n osOut h

/-- Previous state for the C8 witness: the ignored name is already present
in both known-device sets (worst case). -/
def st8 : Ports :=
  ⟨{"USB RtMidi 1"}, fun _ => none, {"USB RtMidi 1"}, fun _ => none, ∅, fun _ => ∅⟩

/-- Witness for C8: the name `"USB RtMidi 1"` contains the ignored fragment
`"RtMidi"`, and after a cycle in which the OS still reports it, it is in
neither known set. -/
theorem ignored_never_known_w :
    "USB RtMidi 1" ∉ (update_cycle st8 ["USB RtMidi 1"] ["USB RtMidi 1"]).inKeys ∧
    "USB RtMidi 1" ∉ (update_cycle st8 ["USB RtMidi 1"] ["USB RtMidi 1"]).outKeys :=
  ignored_never_known "USB RtMidi 1" (by decide) st8 ["USB RtMidi 1"] ["USB RtMidi 1"]

/-! ### Cascade completeness of device removal -/

/-- C1: device-removal cascade is complete.  From a state in which every edge
endpoint is known (`WF`), one poll cycle removes, for every input it drops,
the adjacency key and the whole fan-out set; removes every dropped output
from every fan-out set; and re-establishes `WF`, so no edge endpoint lies
outside the known-device sets after the cycle. -/
theorem cascade_removal_complete (st : Ports) (osIn osOut : List String) (hwf : WF st) :
    (∀ d ∈ removedInputsD st osIn,
      d ∉ (update_cycle st osIn osOut).cKeys ∧ (update_cycle st osIn osOut).cMap d = ∅) ∧
    (∀ d ∈ removedOutputsD st osOut, ∀ x, d ∉ (update_cycle st osIn osOut).cMap x) ∧
    WF (update_cycle st osIn osOut) := by
  unfold WF at hwf
  obtain ⟨hw1, hw2, hw3⟩ := hwf
  refine ⟨?_, ?_, ?_, ?_, ?_⟩
  · intro d hd
    rw [removedInputsD] at hd
    constructor
    · show d ∉ st.cKeys \ (st.inKeys \ filterNames osIn)
      simp only [Finset.mem_sdiff, not_and, not_not]
      intro _ himp
      rw [Finset.mem_sdiff] at hd
      exact hd.2 (himp hd.1)
    · show (if d ∈ st.inKeys \ filterNames osIn then ∅ else st.cMap d)
        \ (st.outKeys \ filterNames osOut) = ∅
      rw [if_pos hd, Finset.empty_sdiff]
  · intro d hd x
    rw [removedOutputsD] at hd
    show d ∉ (if x ∈ st.inKeys \ filterNames osIn then ∅ else st.cMap x)
      \ (st.outKeys \ filterNames osOut)
    simp only [Finset.mem_sdiff, not_and, not_not]
    intro _ himp
    rw [Finset.mem_sdiff] at hd
    exact hd.2 (himp hd.1)
  · rw [cycle_inKeys]
    intro x hx
    have hx2 : x ∈ st.cKeys ∧ x ∉ st.inKeys \ filterNames osIn := Finset.mem_sdiff.mp hx
    have hxin : x ∈ st.inKeys := hw1 hx2.1
    by_contra hnew
    exact hx2.2 (Finset.mem_sdiff.mpr ⟨hxin, hnew⟩)
  · intro x hx
    have hx2 : x ∉ st.cKeys \ (st.inKeys \ filterNames osIn) := hx
    show (if x ∈ st.inKeys \ filterNames osIn then ∅ else st.cMap x)
      \ (st.outKeys \ filterNames osOut) = ∅
    by_cases hrem : x ∈ st.inKeys \ filterNames osIn
    · rw [if_pos hrem, Finset.empty_sdiff]
    · rw [if_neg hrem]
      have hnc : x ∉ st.cKeys := fun hc => hx2 (Finset.mem_sdiff.mpr ⟨hc, hrem⟩)
      rw [hw2 x hnc, Finset.empty_sdiff]
  · intro x
    rw [cycle_outKeys]
    intro y hy
    have hy2 : y ∈ (if x ∈ st.inKeys \ filterNames osIn then ∅ else st.cMap x)
        \ (st.outKeys \ filterNames osOut) := hy
    rw [Finset.mem_sdiff] at hy2
    by_cases hrem : x ∈ st.inKeys \ filterNames osIn
    · rw [if_pos hrem] at hy2
      exact absurd hy2.1 (Finset.not_mem_empty y)
    · rw [if_neg hrem] at hy2
      have hyo : y ∈ st.outKeys := hw3 x hy2.1
      by_contra hnew
      exact hy2.2 (Finset.mem_sdiff.mpr ⟨hyo, hnew⟩)

/-- Pre-state for the C1 witness: one input, one output, one edge. -/
def st1 : Ports :=
  ⟨{"USB MIDI 1"}, fun _ => none, {"Synth A"}, fun _ => none, {"USB MIDI 1"},
    fun x => if x = "USB MIDI 1" then {"Synth A"} else ∅⟩

lemma st1_wf : WF st1 := by
  unfold WF
  refine ⟨?_, ?_, ?_⟩
  · simp [st1]
  · intro x hx
    simp only [st1, Finset.mem_singleton] at hx
    simp [st1, hx]
  · intro x
    by_cases h : x = "USB MIDI 1" <;> simp [st1, h]

/-- Witness for C1: the OS stops reporting `"USB MIDI 1"`; the cycle removes
it together with its adjacency entry. -/
theorem cascade_removal_complete_w :
    "USB MIDI 1" ∉ (update_cycle st1 [] []).cKeys ∧
    (update_cycle st1 [] []).cMap "USB MIDI 1" = ∅ :=
  (cascade_removal_complete st1 [] [] st1_wf).1 "USB MIDI 1" (by decide)

/-! ### Handle lifecycle -/

/-- State of the C4 counterexample: `"USB MIDI 1"` is known and its handle
slot holds the open handle `7`. -/
def st4 : Ports :=
  ⟨{"USB MIDI 1"}, fun x => if x = "USB MIDI 1" then some 7 else none, ∅,
    fun _ => none, ∅, fun _ => ∅⟩

/-- C4 counterexample: removal does not close the handle.  When the OS stops
reporting `"USB MIDI 1"`, the poll cycle drops the device (it is in the
removal delta and leaves the known input set), but `app.py` contains no
`close()` call, so the OS-level handle `7` is still open afterwards. -/
theorem removal_does_not_close :
    "USB MIDI 1" ∈ removedInputsD st4 [] ∧
    "USB MIDI 1" ∉ (update_cycleH st4 {7} [] []).1.inKeys ∧
    (7 : Nat) ∈ (update_cycleH st4 {7} [] []).2 := by
  refine ⟨by decide, by decide, by decide⟩

/-- C4 (amended): handle-cache lifecycle.  If handle slots are populated only
for known devices, the poll cycle preserves that invariant; the cycle clears
the slot of every device it removes, so the cache entry is evicted with the
key (a device whose slot was never opened is evicted by the same no-op); but
the set of OS-level open handles is untouched — the evicted handle is
dropped, not closed. -/
theorem handle_cache_lifecycle (st : Ports) (osIn osOut : List String)
    (openHandles : Finset Nat)
    (hin : ∀ x, x ∉ st.inKeys → st.inH x = none)
    (hout : ∀ x, x ∉ st.outKeys → st.outH x = none) :
    (∀ x, x ∉ (update_cycle st osIn osOut).inKeys →
      (update_cycle st osIn osOut).inH x = none) ∧
    (∀ x, x ∉ (update_cycle st osIn osOut).outKeys →
      (update_cycle st osIn osOut).outH x = none) ∧
    (∀ d ∈ removedInputsD st osIn, (update_cycle st osIn osOut).inH d = none) ∧
    (∀ d ∈ removedOutputsD st osOut, (update_cycle st osIn osOut).outH d = none) ∧
    (update_cycleH st openHandles osIn osOut).2 = openHandles := by
  refine ⟨?_, ?_, ?_, ?_, rfl⟩
  · intro x hx
    rw [cycle_inKeys] at hx
    show (if x ∈ filterNames osIn \ st.inKeys then none
      else if x ∈ st.inKeys \ filterNames osIn then none else st.inH x) = none
    rw [if_neg (fun hc => hx (Finset.mem_sdiff.mp hc).1)]
    by_cases hk : x ∈ st.inKeys
    · rw [if_pos (Finset.mem_sdiff.mpr ⟨hk, hx⟩)]
    · rw [if_neg (fun hc => hk (Finset.mem_sdiff.mp hc).1)]
      exact hin x hk
  · intro x hx
    rw [cycle_outKeys] at hx
    show (if x ∈ filterNames osOut \ st.outKeys then none
      else if x ∈ st.outKeys \ filterNames osOut then none else st.outH x) = none
    rw [if_neg (fun hc => hx (Finset.mem_sdiff.mp hc).1)]
    by_cases hk : x ∈ st.outKeys
    · rw [if_pos (Finset.mem_sdiff.mpr ⟨hk, hx⟩)]
    · rw [if_neg (fun hc => hk (Finset.mem_sdiff.mp hc).1)]
      exact hout x hk
  · intro d hd
    rw [removedInputsD] at hd
    show (if d ∈ filterNames osIn \ st.inKeys then none
      else if d ∈ st.inKeys \ filterNames osIn then none else st.inH d) = none
    rw [if_neg (fun hc => (Finset.mem_sdiff.mp hc).2 (Finset.mem_sdiff.mp hd).1),
      if_pos hd]
  · intro d hd
    rw [removedOutputsD] at hd
    show (if d ∈ filterNames osOut \ st.outKeys then none
      else if d ∈ st.outKeys \ filterNames osOut then none else st.outH d) = none
    rw [if_neg (fun hc => (Finset.mem_sdiff.mp hc).2 (Finset.mem_sdiff.mp hd).1),
      if_pos hd]

/-- Pre-state for the C4 amended witness. -/
def st4w : Ports := ⟨{"USB MIDI 1"}, fun _ => none, ∅, fun _ => none, ∅, fun _ => ∅⟩

/-- Witness for the amended C4: removing `"USB MIDI 1"` leaves its handle
slot empty. -/
theorem handle_cache_lifecycle_w :
    (update_cycle st4w [] []).inH "USB MIDI 1" = none :=
  (handle_cache_lifecycle st4w [] [] ∅ (fun _ _ => rfl) (fun _ _ => rfl)).2.2.1
    "USB MIDI 1" (by decide)

/-! ### Fan-out forwarding: order and content preservation -/

lemma mem_block_src (j : String) (ts : List String) (msgs : List Msg)
    (s : String × String × Msg)
    (hs : s ∈ msgs.flatMap fun m => ts.map fun t => (j, t, m)) : s.1 = j := by
  rw [List.mem_flatMap] at hs
  obtain ⟨m, -, hm⟩ := hs
  rw [List.mem_map] at hm
  obtain ⟨t, -, hE⟩ := hm
  rw [← hE]

lemma filter_block_ne (i t j : String) (ts : List String) (msgs : List Msg) (hj : j ≠ i) :
    (msgs.flatMap fun m => ts.map fun t' => ((j, t', m) : String × String × Msg)).filter
      (fun s => s.1 == i && s.2.1 == t) = [] := by
  rw [List.filter_eq_nil_iff]
  intro s hs
  have h1 := mem_block_src j ts msgs s hs
  simp [h1, hj]

lemma filter_targets_single (i t : String) (m : Msg) (ts : List String)
    (hnd : ts.Nodup) (ht : t ∈ ts) :
    (ts.map fun t' => ((i, t', m) : String × String × Msg)).filter
      (fun s => s.1 == i && s.2.1 == t) = [(i, t, m)] := by
  induction ts with
  | nil => cases ht
  | cons c cs ih =>
    have hnotin : c ∉ cs := (List.nodup_cons.mp hnd).1
    rw [List.map_cons, List.filter_cons]
    by_cases hc : c = t
    · subst hc
      rw [if_pos (by simp)]
      have hnil : (cs.map fun t' => ((i, t', m) : String × String × Msg)).filter
          (fun s => s.1 == i && s.2.1 == c) = [] := by
        rw [List.filter_eq_nil_iff]
        intro s hs
        rw [List.mem_map] at hs
        obtain ⟨t', ht', hE⟩ := hs
        subst hE
        simp only [Bool.and_eq_true, beq_iff_eq, not_and]
        intro _ h2
        exact hnotin (h2 ▸ ht')
      rw [hnil]
    · rw [if_neg (by simp [hc])]
      have htc : t ∈ cs := by
        rcases List.mem_cons.mp ht with h | h
        · exact absurd h.symm hc
        · exact h
      exact ih (List.nodup_cons.mp hnd).2 htc

lemma filter_map_block (i t : String) (ts : List String) (hnd : ts.Nodup) (ht : t ∈ ts) :
    ∀ msgs : List Msg,
      ((msgs.flatMap fun m => ts.map fun t' => ((i, t', m) : String × String × Msg)).filter
        (fun s => s.1 == i && s.2.1 == t)).map (fun s => s.2.2) = msgs := by
  intro msgs
  induction msgs with
  | nil => rfl
  | cons m ms ih =>
    rw [List.flatMap_cons, List.filter_append, List.map_append,
      filter_targets_single i t m ts hnd ht, ih]
    rfl

lemma filter_sends_absent (i t : String) (conns : List (String × List String))
    (pending : String → List Msg) (h : i ∉ conns.map Prod.fst) :
    (tickSends conns pending).filter (fun s => s.1 == i && s.2.1 == t) = [] := by
  rw [List.filter_eq_nil_iff]
  intro s hs
  rw [tickSends, List.mem_flatMap] at hs
  obtain ⟨p, hp, hsp⟩ := hs
  have hsrc : s.1 = p.1 := mem_block_src p.1 p.2 (pending p.1) s hsp
  have hne : p.1 ≠ i := fun hEq => h (hEq ▸ List.mem_map.mpr ⟨p, hp, rfl⟩)
  simp [hsrc, hne]

/-- C5: fan-out forwarding preserves content and per-input order.  For any
input `i` with fan-out list `ts` in the adjacency snapshot of the tick
(adjacency keys are unique, a fan-out set has no duplicates), each target
`t ∈ ts` receives, in order, exactly the drained pending list of `i`; and
every send event of the tick carries an unmodified pending message of its
source to a target inside that source's fan-out set. -/
theorem fanout_order_preserved (conns : List (String × List String))
    (pending : String → List Msg) (i t : String) (ts : List String)
    (hmem : (i, ts) ∈ conns) (hkeys : (conns.map Prod.fst).Nodup)
    (hnd : ts.Nodup) (ht : t ∈ ts) :
    ((tickSends conns pending).filter (fun s => s.1 == i && s.2.1 == t)).map
      (fun s => s.2.2) = pending i ∧
    ∀ s ∈ tickSends conns pending,
      ∃ p ∈ conns, s.1 = p.1 ∧ s.2.1 ∈ p.2 ∧ s.2.2 ∈ pending p.1 := by
  constructor
  · induction conns with
    | nil => cases hmem
    | cons q qs ih =>
      have hnodup := hkeys
      rw [List.map_cons, List.nodup_cons] at hnodup
      rw [tickSends, List.flatMap_cons, List.filter_append, List.map_append]
      rcases List.mem_cons.mp hmem with hq | hq
      · have h1 : q.1 = i := by rw [← hq]
        have h2 : q.2 = ts := by rw [← hq]
        rw [h1, h2, filter_map_block i t ts hnd ht (pending i)]
        have habs : i ∉ qs.map Prod.fst := by
          rw [← h1]; exact hnodup.1
        have hnil : (tickSends qs pending).filter
            (fun s => s.1 == i && s.2.1 == t) = [] :=
          filter_sends_absent i t qs pending habs
        rw [tickSends] at hnil
        rw [hnil, List.map_nil, List.append_nil]
      · have hin : i ∈ qs.map Prod.fst := List.mem_map.mpr ⟨(i, ts), hq, rfl⟩
        have hne : q.1 ≠ i := fun hEq => hnodup.1 (hEq ▸ hin)
        rw [filter_block_ne i t q.1 q.2 (pending q.1) hne, List.map_nil,
          List.nil_append]
        exact ih hq hnodup.2
  · intro s hs
    rw [tickSends, List.mem_flatMap] at hs
    obtain ⟨p, hp, hsp⟩ := hs
    rw [List.mem_flatMap] at hsp
    obtain ⟨m, hm, hmt⟩ := hsp
    rw [List.mem_map] at hmt
    obtain ⟨t', ht', hE⟩ := hmt
    subst hE
    exact ⟨p, hp, rfl, ht', hm⟩

/-- Adjacency snapshot for the C5 witness: one input fanned out to two
outputs. -/
def conns5 : List (String × List String) := [("USB MIDI 1", ["Synth A", "Synth B"])]

/-- Pending messages for the C5 witness: a note-on and a note-off on the
input, nothing elsewhere. -/
def pending5 : String → List Msg :=
  fun x => if x = "USB MIDI 1" then [[144, 64, 127], [128, 64, 0]] else []

/-- Witness for C5: `"Synth A"` receives `[note-on, note-off]` in drained
order. -/
theorem fanout_order_preserved_w :
    ((tickSends conns5 pending5).filter
      (fun s => s.1 == "USB MIDI 1" && s.2.1 == "Synth A")).map (fun s => s.2.2)
      = pending5 "USB MIDI 1" :=
  (fanout_order_preserved conns5 pending5 "USB MIDI 1" "Synth A" ["Synth A", "Synth B"]
    (by decide) (by decide) (by decide) (by decide)).1

/-! ### Which inputs a routing tick touches -/

/-- Adjacency snapshot of the C7 counterexample: the key survives with an
empty fan-out set, exactly the state `toggle` leaves after disconnecting the
last edge (`set.remove` empties the set but the defaultdict keeps the key). -/
def conns7 : List (String × List String) := [("USB MIDI 1", [])]

/-- Pending messages for the C7 counterexample. -/
def pending7 : String → List Msg :=
  fun x => if x = "USB MIDI 1" then [[144, 64, 127]] else []

/-- C7 counterexample: an input whose adjacency entry holds an empty target
set is still processed by the propagation block: its handle slot is touched
(opened if still `None`) and its pending message is drained — and then
discarded, since there is no target to send it to. -/
theorem empty_fanout_still_processed :
    "USB MIDI 1" ∈ tickOpened conns7 ∧
    tickDrains conns7 pending7 = [("USB MIDI 1", [144, 64, 127])] ∧
    tickSends conns7 pending7 = [] := by
  refine ⟨by decide, by decide, by decide⟩

/-- C7 (amended): the propagation block processes exactly the keys of the
adjacency mapping.  An input absent from the mapping has no handle touched
and no message drained or sent during the tick; every input present as a key
is processed, even when its fan-out set is empty. -/
theorem absent_input_not_processed (conns : List (String × List String))
    (pending : String → List Msg) (i : String)
    (h : i ∉ conns.map Prod.fst) :
    i ∉ tickOpened conns ∧
    (tickDrains conns pending).filter (fun p => p.1 == i) = [] ∧
    (tickSends conns pending).filter (fun s => s.1 == i) = [] ∧
    ∀ q ∈ conns, q.1 ∈ tickOpened conns := by
  refine ⟨h, ?_, ?_, ?_⟩
  · rw [List.filter_eq_nil_iff]
    intro s hs
    rw [tickDrains, List.mem_flatMap] at hs
    obtain ⟨p, hp, hsp⟩ := hs
    rw [List.mem_map] at hsp
    obtain ⟨m, -, hE⟩ := hsp
    subst hE
    have hne : p.1 ≠ i := fun hEq => h (hEq ▸ List.mem_map.mpr ⟨p, hp, rfl⟩)
    simp [hne]
  · rw [List.filter_eq_nil_iff]
    intro s hs
    rw [tickSends, List.mem_flatMap] at hs
    obtain ⟨p, hp, hsp⟩ := hs
    have hsrc : s.1 = p.1 := mem_block_src p.1 p.2 (pending p.1) s hsp
    have hne : p.1 ≠ i := fun hEq => h (hEq ▸ List.mem_map.mpr ⟨p, hp, rfl⟩)
    simp [hsrc, hne]
  · intro q hq
    exact List.mem_map.mpr ⟨q, hq, rfl⟩

/-- Adjacency snapshot for the C7 amended witness. -/
def conns7w : List (String × List String) := [("USB MIDI 1", ["Synth A"])]

/-- Pending messages for the C7 amended witness. -/
def pending7w : String → List Msg := fun _ => [[144, 64, 127]]

/-- Witness for the amended C7: `"USB MIDI 2"` has no adjacency key, so the
tick leaves it alone, while the present key is processed. -/
theorem absent_input_not_processed_w :
    "USB MIDI 2" ∉ tickOpened conns7w ∧
    (tickDrains conns7w pending7w).filter (fun p => p.1 == "USB MIDI 2") = [] ∧
    (tickSends conns7w pending7w).filter (fun s => s.1 == "USB MIDI 2") = [] ∧
    ∀ q ∈ conns7w, q.1 ∈ tickOpened conns7w :=
  absent_input_not_processed conns7w pending7w "USB MIDI 2" (by decide)

end Miditopus
